import Mathlib

/-!
Shallow embedding of the meal-planner engine
(`src/backend/app/{models,decision_maker,memory,action}.py`) and proofs of
the specified properties.

Conventions of the embedding:
* Python `float` quantities and scores are modelled as `ℚ`.
* Python `date` values are modelled as `Int` (days); `timedelta(days=7)` is `7`.
* Python `None` returns are modelled with `Option`.
* Python `set` is modelled as `Finset`; Python `dict` (insertion ordered) is
  modelled as an association list with in-place overwrite on key collision.
-/

namespace MealPlanner

/-- Closed enumeration from `models.py` (`DietaryPreference`). -/
inductive DietaryPreference where
  | NONE
  | VEGETARIAN
  | VEGAN
  | KETO
  | PALEO
deriving DecidableEq, Repr

/-- Record from `models.py` (`Ingredient`): a plain pydantic model with typed
fields and no validators. -/
structure Ingredient where
  name : String
  quantity : ℚ
  unit : String
deriving DecidableEq, Repr

/-- Constructing an `Ingredient` in `models.py` only type-checks the fields
(pydantic `BaseModel` with no validators): every name, quantity and unit is
accepted verbatim and stored. -/
def mkIngredient (name : String) (quantity : ℚ) (unit : String) : Ingredient :=
  ⟨name, quantity, unit⟩

/-- Modelled from the spec: the predicate that the `MalformedIngredient`
error of §7 is supposed to reject (non-positive quantity, or empty
name/unit). The source has no such error class; this definition exists only
to compare the source's behaviour with the spec's words. -/
def specMalformed (i : Ingredient) : Bool :=
  i.quantity ≤ 0 || i.name = "" || i.unit = ""

/-- Record from `models.py` (`Recipe`). -/
structure Recipe where
  id : String
  name : String
  meal_type : String
  description : String
  required_ingredients : List Ingredient
  instructions : List String
  preparation_time : Int
  dietary_preferences : List DietaryPreference
  cuisine_type : String
deriving DecidableEq, Repr

/-- Record from `models.py` (`Meal`). -/
structure Meal where
  recipe : Recipe
  used_ingredients : List Ingredient
  missing_ingredients : List Ingredient
deriving DecidableEq, Repr

/-- Record from `models.py` (`MealPlan`). -/
structure MealPlan where
  date : Int
  breakfast : Meal
  lunch : Meal
  dinner : Meal
  shopping_list : List Ingredient
deriving DecidableEq, Repr

/-- Record from `models.py` (`UserPreferences`). `max_preparation_time` is
`Optional[int]`, i.e. `Option Int`. -/
structure UserPreferences where
  dietary_preference : DietaryPreference
  available_ingredients : List Ingredient
  excluded_ingredients : List String
  max_preparation_time : Option Int
deriving DecidableEq, Repr

/-- Condition of the inner loop of `DecisionMaker.create_meal`
(`decision_maker.py` lines 33-39): some available ingredient has equal name,
equal unit, and at least the required quantity. -/
def ingredient_satisfied (available_ingredients : List Ingredient)
    (required_ing : Ingredient) : Bool :=
  available_ingredients.any fun available_ing =>
    required_ing.name = available_ing.name &&
    required_ing.unit = available_ing.unit &&
    required_ing.quantity ≤ available_ing.quantity

/-- `DecisionMaker.create_meal` (`decision_maker.py` lines 25-47): walk
`recipe.required_ingredients` in order; a required ingredient found in the
available pool (first match by name, unit and sufficient quantity) is
appended to `used_ingredients`, otherwise to `missing_ingredients`. The
appended element is always the required ingredient itself; the pool is never
decremented. -/
def create_meal (recipe : Recipe) (available_ingredients : List Ingredient) : Meal :=
  let lists := recipe.required_ingredients.foldl
    (fun (acc : List Ingredient × List Ingredient) required_ing =>
      if ingredient_satisfied available_ingredients required_ing then
        (acc.1 ++ [required_ing], acc.2)
      else
        (acc.1, acc.2 ++ [required_ing]))
    ([], [])
  ⟨recipe, lists.1, lists.2⟩

/-- Set of available-ingredient names used by
`DecisionMaker._calculate_recipe_score` (`decision_maker.py` line 79). -/
def available_names (preferences : UserPreferences) : Finset String :=
  (preferences.available_ingredients.map Ingredient.name).toFinset

/-- Set of required-ingredient names used by
`DecisionMaker._calculate_recipe_score` (`decision_maker.py` line 80). -/
def required_names (recipe : Recipe) : Finset String :=
  (recipe.required_ingredients.map Ingredient.name).toFinset

/-- `DecisionMaker._calculate_recipe_score` (`decision_maker.py` lines
74-102). The four additive contributions are accumulated in source order.
Note `if preferences.max_preparation_time:` is Python truthiness: both
`None` and `0` skip the preparation-time branch. -/
def calculate_recipe_score (recipe : Recipe) (preferences : UserPreferences) : ℚ :=
  let available_ingredients := available_names preferences
  let required_ingredients := required_names recipe
  let score : ℚ := 0
  let score :=
    if required_ingredients.card ≠ 0 then
      score + ((available_ingredients ∩ required_ingredients).card : ℚ)
        / (required_ingredients.card : ℚ) * 5
    else score
  let score :=
    match preferences.max_preparation_time with
    | none => score
    | some m =>
      if m = 0 then score
      else if recipe.preparation_time ≤ m then score + 2 else score - 1
  let score :=
    if preferences.dietary_preference ∈ recipe.dietary_preferences then score + 3
    else score
  let score :=
    if preferences.excluded_ingredients.any fun excluded =>
        excluded ∈ required_ingredients then
      score - 10
    else score
  score

/-- Loop body of `DecisionMaker._select_best_recipe` (`decision_maker.py`
lines 58-66): skip recently used recipes (`recipe.id ∈ recentIds`), keep
the strictly best score seen so far. `best_score = -inf` together with
`best_recipe = None` is modelled by the `none` accumulator: the first
non-recent candidate always wins against it. -/
def select_step (preferences : UserPreferences) (recentIds : Finset String)
    (best : Option Recipe) (recipe : Recipe) : Option Recipe :=
  if recipe.id ∈ recentIds then best
  else
    match best with
    | none => some recipe
    | some best_recipe =>
      if calculate_recipe_score best_recipe preferences
          < calculate_recipe_score recipe preferences then
        some recipe
      else some best_recipe

/-- `DecisionMaker._select_best_recipe` (`decision_maker.py` lines 49-72):
fold `select_step` over the candidates. If no candidate survived
(`best_recipe is None`) and the list is non-empty, fall back to the first
candidate; if the list is empty the Python code returns `None`. -/
def select_best_recipe (recipes : List Recipe) (preferences : UserPreferences)
    (recentIds : Finset String) : Option Recipe :=
  match recipes.foldl (select_step preferences recentIds) none with
  | some r => some r
  | none => recipes.head?

/-- `DecisionMaker.select_meals` (`decision_maker.py` lines 8-23): filter the
candidates by meal type for each slot and select each slot independently. -/
def select_meals (available_recipes : List Recipe)
    (user_preferences : UserPreferences) (recentIds : Finset String) :
    Option Recipe × Option Recipe × Option Recipe :=
  let breakfast_options := available_recipes.filter fun r => r.meal_type = "breakfast"
  let lunch_options := available_recipes.filter fun r => r.meal_type = "lunch"
  let dinner_options := available_recipes.filter fun r => r.meal_type = "dinner"
  (select_best_recipe breakfast_options user_preferences recentIds,
   select_best_recipe lunch_options user_preferences recentIds,
   select_best_recipe dinner_options user_preferences recentIds)

/-- `ActionModule._compile_shopping_list` loop body (`action.py` lines
31-42): the consolidation dictionary keyed by `(name, unit)` is modelled as
an insertion-ordered association list. A present key has its stored
ingredient's quantity bumped in place; an absent key appends a fresh
`Ingredient` built from the missing entry's fields. -/
def add_missing (consolidated : List ((String × String) × Ingredient))
    (ingredient : Ingredient) : List ((String × String) × Ingredient) :=
  let key := (ingredient.name, ingredient.unit)
  if consolidated.any fun kv => kv.1 = key then
    consolidated.map fun kv =>
      if kv.1 = key then
        (kv.1, ⟨kv.2.name, kv.2.quantity + ingredient.quantity, kv.2.unit⟩)
      else kv
  else
    consolidated ++ [(key, ⟨ingredient.name, ingredient.quantity, ingredient.unit⟩)]

/-- `ActionModule._compile_shopping_list` (`action.py` lines 25-44): fold
every `missing_ingredients` entry of every meal (meals in given order,
ingredients in listed order) into the consolidation dictionary, then return
its values in insertion order. -/
def compile_shopping_list (meals : List Meal) : List Ingredient :=
  (meals.foldl
      (fun consolidated meal => meal.missing_ingredients.foldl add_missing consolidated)
      []).map Prod.snd

/-- The `(name, unit)` consolidation key of `action.py` line 32. -/
def ing_key (i : Ingredient) : String × String :=
  (i.name, i.unit)

/-- State of `MemoryModule` (`memory.py` lines 9-11): the stored plans
dictionary (insertion-ordered, keyed by date) and the set of recently used
recipe ids. The `saved_recipes` bookkeeping is unrelated to the claims and
omitted. -/
structure MemoryState where
  meal_plans : List (Int × MealPlan)
  recent_recipe_ids : Finset String
deriving DecidableEq

/-- Python dict read `self.meal_plans.get(target_date)`. -/
def dict_lookup (m : List (Int × MealPlan)) (k : Int) : Option MealPlan :=
  match m with
  | [] => none
  | kv :: rest => if kv.1 = k then some kv.2 else dict_lookup rest k

/-- Python dict write `self.meal_plans[date] = plan`: overwrite in place when
the key is present (keeping its position), else append. -/
def dict_insert (m : List (Int × MealPlan)) (k : Int) (v : MealPlan) :
    List (Int × MealPlan) :=
  if m.any fun kv => kv.1 = k then
    m.map fun kv => if kv.1 = k then (k, v) else kv
  else
    m ++ [(k, v)]

/-- The three recipe ids referenced by a plan, as added to
`recent_recipe_ids` in `memory.py` lines 19-21 and collected in lines
42-44. -/
def plan_recipe_ids (meal_plan : MealPlan) : Finset String :=
  {meal_plan.breakfast.recipe.id, meal_plan.lunch.recipe.id, meal_plan.dinner.recipe.id}

/-- `MemoryModule._cleanup_old_recipes` (`memory.py` lines 34-47): with
`cutoff_date = today - 7`, collect the ids referenced by every stored plan
dated strictly before the cutoff and remove exactly that set from
`recent_recipe_ids`. `today` is the wall-clock date at call time, passed
explicitly here. -/
def cleanup_old_recipes (today : Int) (st : MemoryState) : MemoryState :=
  let cutoff_date := today - 7
  let old_recipe_ids :=
    ((st.meal_plans.filter fun kv => kv.1 < cutoff_date).map
        fun kv => plan_recipe_ids kv.2).foldl (· ∪ ·) ∅
  ⟨st.meal_plans, st.recent_recipe_ids \ old_recipe_ids⟩

/-- `MemoryModule.store_meal_plan` (`memory.py` lines 14-24): store the plan
under its date, add its three recipe ids to `recent_recipe_ids`, then run
the cleanup. -/
def store_meal_plan (today : Int) (st : MemoryState) (meal_plan : MealPlan) :
    MemoryState :=
  cleanup_old_recipes today
    ⟨dict_insert st.meal_plans meal_plan.date meal_plan,
     st.recent_recipe_ids ∪ plan_recipe_ids meal_plan⟩

/-- `MemoryModule.is_recipe_recently_used` (`memory.py` lines 26-28),
returned together with the (unchanged) state so that the absence of
mutation is a provable statement. -/
def is_recipe_recently_used (recipe : Recipe) (st : MemoryState) :
    Bool × MemoryState :=
  (recipe.id ∈ st.recent_recipe_ids, st)

/-- `MemoryModule.get_past_meal_plan` (`memory.py` lines 30-32), returned
together with the (unchanged) state. -/
def get_past_meal_plan (target_date : Int) (st : MemoryState) :
    Option MealPlan × MemoryState :=
  (dict_lookup st.meal_plans target_date, st)

/-- One call to the public interface of `MemoryModule`. -/
inductive MemOp where
  | record (today : Int) (plan : MealPlan)
  | recentQuery (recipe : Recipe)
  | getQuery (target_date : Int)

/-- State transition of one `MemoryModule` call. -/
def apply_op (st : MemoryState) : MemOp → MemoryState
  | .record today plan => store_meal_plan today st plan
  | .recentQuery recipe => (is_recipe_recently_used recipe st).2
  | .getQuery target_date => (get_past_meal_plan target_date st).2

/-- State after a sequence of `MemoryModule` calls. -/
def run_ops (st : MemoryState) (ops : List MemOp) : MemoryState :=
  ops.foldl apply_op st

/-- The preparation-time contribution actually computed by
`decision_maker.py` lines 87-92, isolated as a function: `None` and `0` are
both falsy in `if preferences.max_preparation_time:`, so both contribute
nothing. -/
def prep_time_term (recipe : Recipe) (preferences : UserPreferences) : ℚ :=
  match preferences.max_preparation_time with
  | none => 0
  | some m =>
    if m = 0 then 0
    else if recipe.preparation_time ≤ m then 2 else -1

/-- First-occurrence deduplication of a key list, written from the spec's
words in §4.5 ("first occurrence of a key creates an entry"; output order is
first-occurrence order): keep each key where it first appears, drop its
later duplicates. -/
def dedupFirst : List (String × String) → List (String × String)
  | [] => []
  | k :: ks => k :: (dedupFirst ks).filter fun k2 => k2 ≠ k

/-- The consolidated entry the spec's §4.5 prescribes for one key: the key's
name and unit, with the sum of the quantities of all missing entries
carrying that key. -/
def canon_entry (xs : List Ingredient) (k : String × String) :
    (String × String) × Ingredient :=
  (k, ⟨k.1, ((xs.filter fun i => ing_key i = k).map Ingredient.quantity).sum, k.2⟩)

/-- The consolidation dictionary the spec's §4.5 prescribes for a stream of
missing ingredients: one entry per distinct key in first-occurrence order,
each holding the summed quantity. -/
def canon (xs : List Ingredient) : List ((String × String) × Ingredient) :=
  (dedupFirst (xs.map ing_key)).map (canon_entry xs)

/- Concrete fixtures used by counterexamples and witnesses. -/

/-- Concrete ingredient: 2 cups of rice. -/
def ing_rice2 : Ingredient := ⟨"rice", 2, "cup"⟩

/-- Concrete ingredient: 3 cups of rice. -/
def ing_rice3 : Ingredient := ⟨"rice", 3, "cup"⟩

/-- Concrete ingredient: 1 piece of onion. -/
def ing_onion : Ingredient := ⟨"onion", 1, "piece"⟩

/-- Concrete ingredient: 1 cup of sugar. -/
def ing_sugar : Ingredient := ⟨"sugar", 1, "cup"⟩

/-- Preferences with no constraints at all. -/
def prefs_plain : UserPreferences := ⟨.NONE, [], [], none⟩

/-- Preferences whose `max_preparation_time` is `0` (falsy in Python). -/
def prefs_zero_cap : UserPreferences := ⟨.NONE, [], [], some 0⟩

/-- Concrete breakfast recipe with no required ingredients and zero
preparation time. -/
def recipe_plain : Recipe :=
  ⟨"rp", "plain breakfast", "breakfast", "", [], [], 0, [], "Indian"⟩

/-- Concrete recipe whose meal type matches no slot. -/
def recipe_main : Recipe :=
  ⟨"rm", "main dish", "main", "", [], [], 5, [], "Indian"⟩

/-- Concrete breakfast recipe requiring rice and onion. -/
def recipe_rice : Recipe :=
  ⟨"rr", "rice bowl", "breakfast", "", [ing_rice2, ing_onion], [], 20, [], "Indian"⟩

/-- Meal wrapping a recipe with empty ingredient lists. -/
def meal_of (r : Recipe) : Meal := ⟨r, [], []⟩

/-- Meal missing one cup of sugar. -/
def meal_sugar : Meal := ⟨recipe_plain, [], [ing_sugar]⟩

/-- Concrete plan dated day 1, referencing `recipe_plain` in all slots. -/
def plan_old : MealPlan :=
  ⟨1, meal_of recipe_plain, meal_of recipe_plain, meal_of recipe_plain, []⟩

/-- Concrete plan dated day 10, referencing `recipe_plain` in all slots. -/
def plan_new : MealPlan :=
  ⟨10, meal_of recipe_plain, meal_of recipe_plain, meal_of recipe_plain, []⟩

/-- Memory state holding only `plan_old`. -/
def mem_st0 : MemoryState := ⟨[(1, plan_old)], ∅⟩

/-! Helper lemmas. -/

/-- The two accumulating lists of `create_meal`'s loop are filters of the
traversed list. -/
theorem foldl_classify_eq_filter (p : Ingredient → Bool) (l : List Ingredient)
    (acc1 acc2 : List Ingredient) :
    l.foldl
        (fun (acc : List Ingredient × List Ingredient) i =>
          if p i then (acc.1 ++ [i], acc.2) else (acc.1, acc.2 ++ [i]))
        (acc1, acc2)
      = (acc1 ++ l.filter p, acc2 ++ l.filter fun i => !(p i)) := by
  induction l generalizing acc1 acc2 with
  | nil => simp
  | cons x xs ih =>
    cases hp : p x with
    | true => simp [hp, ih, List.filter_cons]
    | false => simp [hp, ih, List.filter_cons]

/-- The used list of `create_meal` is the filter of the required list by the
availability condition. -/
theorem create_meal_used_eq (recipe : Recipe) (avail : List Ingredient) :
    (create_meal recipe avail).used_ingredients
      = recipe.required_ingredients.filter (ingredient_satisfied avail) := by
  unfold create_meal
  rw [foldl_classify_eq_filter]
  simp

/-- The missing list of `create_meal` is the filter of the required list by
the negated availability condition. -/
theorem create_meal_missing_eq (recipe : Recipe) (avail : List Ingredient) :
    (create_meal recipe avail).missing_ingredients
      = recipe.required_ingredients.filter fun i => !(ingredient_satisfied avail i) := by
  unfold create_meal
  rw [foldl_classify_eq_filter]
  simp

/-- C3: `create_meal` processes `required_ingredients` in order, classifying
each required ingredient as used iff some available ingredient has equal
name, equal unit, and quantity at least the required quantity (appending
the required ingredient itself, never the available one), otherwise as
missing; used and missing are the two complementary filters of
`required_ingredients`, so together they form an exact partition of it
(each required entry appears exactly once across the two lists, up to
permutation of the concatenation), and an empty required list yields two
empty lists. -/
theorem create_meal_partition_spec (recipe : Recipe) (avail : List Ingredient) :
    ((create_meal recipe avail).used_ingredients
        = recipe.required_ingredients.filter fun required_ing =>
            avail.any fun available_ing =>
              required_ing.name = available_ing.name &&
              required_ing.unit = available_ing.unit &&
              required_ing.quantity ≤ available_ing.quantity)
    ∧ ((create_meal recipe avail).missing_ingredients
        = recipe.required_ingredients.filter fun required_ing =>
            !(avail.any fun available_ing =>
              required_ing.name = available_ing.name &&
              required_ing.unit = available_ing.unit &&
              required_ing.quantity ≤ available_ing.quantity))
    ∧ ((create_meal recipe avail).used_ingredients
          ++ (create_meal recipe avail).missing_ingredients).Perm
        recipe.required_ingredients
    ∧ (recipe.required_ingredients = [] →
        (create_meal recipe avail).used_ingredients = []
          ∧ (create_meal recipe avail).missing_ingredients = []) := by
  have hused := create_meal_used_eq recipe avail
  have hmiss := create_meal_missing_eq recipe avail
  refine ⟨hused, hmiss, ?_, ?_⟩
  · rw [hused, hmiss]
    exact List.filter_append_perm _ _
  · intro h
    rw [hused, hmiss, h]
    exact ⟨rfl, rfl⟩

/-- Witness for C3 at the spec's §8 example: required `[2 cup rice, 1 piece
onion]`, available `[3 cup rice]` gives used `[2 cup rice]` and missing
`[1 piece onion]`. -/
theorem create_meal_partition_spec_witness :
    ((create_meal recipe_rice [ing_rice3]).used_ingredients = [ing_rice2]
      ∧ (create_meal recipe_rice [ing_rice3]).missing_ingredients = [ing_onion])
    ∧ (create_meal recipe_plain []).used_ingredients = []
    ∧ (create_meal recipe_plain []).missing_ingredients = [] := by
  have h := create_meal_partition_spec recipe_rice [ing_rice3]
  have h0 := (create_meal_partition_spec recipe_plain []).2.2.2 (by decide)
  refine ⟨⟨?_, ?_⟩, h0⟩
  · rw [h.1]; decide
  · rw [h.2.1]; decide

/-- C10: the used and missing lists returned by `create_meal` are each
subsequences of `recipe.required_ingredients`: they preserve the relative
order of the required list, and every element of either list is literally
one of the recipe's required ingredients (never an ingredient drawn from
the available pool). -/
theorem create_meal_sublists_of_required (recipe : Recipe) (avail : List Ingredient) :
    (create_meal recipe avail).used_ingredients.Sublist recipe.required_ingredients
    ∧ (create_meal recipe avail).missing_ingredients.Sublist recipe.required_ingredients
    ∧ (∀ i ∈ (create_meal recipe avail).used_ingredients,
        i ∈ recipe.required_ingredients)
    ∧ (∀ i ∈ (create_meal recipe avail).missing_ingredients,
        i ∈ recipe.required_ingredients) := by
  have hused := create_meal_used_eq recipe avail
  have hmiss := create_meal_missing_eq recipe avail
  rw [hused, hmiss]
  exact ⟨List.filter_sublist _, List.filter_sublist _,
    fun i hi => (List.filter_sublist _).subset hi,
    fun i hi => (List.filter_sublist _).subset hi⟩

/-- Witness for C10: at the spec's §8 example both returned lists are
subsequences of the required list. -/
theorem create_meal_sublists_of_required_witness :
    (create_meal recipe_rice [ing_rice3]).used_ingredients.Sublist
      recipe_rice.required_ingredients
    ∧ (create_meal recipe_rice [ing_rice3]).missing_ingredients.Sublist
      recipe_rice.required_ingredients
    ∧ ing_rice2 ∈ recipe_rice.required_ingredients :=
  ⟨(create_meal_sublists_of_required recipe_rice [ing_rice3]).1,
   (create_meal_sublists_of_required recipe_rice [ing_rice3]).2.1,
   (create_meal_sublists_of_required recipe_rice [ing_rice3]).2.2.1
     ing_rice2 (by decide)⟩

/-- The sequentially accumulated score equals the sum of its four isolated
contributions. -/
theorem calculate_recipe_score_eq_terms (recipe : Recipe) (preferences : UserPreferences) :
    calculate_recipe_score recipe preferences =
      (if (required_names recipe).card ≠ 0 then
          ((available_names preferences ∩ required_names recipe).card : ℚ)
            / ((required_names recipe).card : ℚ) * 5
        else 0)
      + prep_time_term recipe preferences
      + (if preferences.dietary_preference ∈ recipe.dietary_preferences then 3 else 0)
      + (if preferences.excluded_ingredients.any
            (fun excluded => excluded ∈ required_names recipe) then
          (-10 : ℚ)
        else 0) := by
  obtain ⟨dp, avail, excl, mpt⟩ := preferences
  cases mpt with
  | none =>
    simp only [calculate_recipe_score, prep_time_term]
    split_ifs <;> ring
  | some m =>
    simp only [calculate_recipe_score, prep_time_term]
    split_ifs <;> ring

/-- Counterexample to C5: `max_preparation_time = 0` is falsy in Python
(`if preferences.max_preparation_time:`), so the preparation-time term
contributes nothing even though `recipe.preparation_time ≤ 0`; the claim
demands a `+2` contribution. Every other term is zero here (no required
ingredients, no dietary match, no exclusions), so the claim predicts a
score of `2`, while the code computes `0` — identical to the score with
`max_preparation_time` unset. -/
theorem score_zero_cap_counterexample :
    prefs_zero_cap.max_preparation_time = some 0
    ∧ recipe_plain.preparation_time ≤ 0
    ∧ calculate_recipe_score recipe_plain prefs_zero_cap = 0
    ∧ calculate_recipe_score recipe_plain prefs_plain = 0 := by
  refine ⟨rfl, by decide, ?_, ?_⟩ <;> decide

/-- C5 as amended: when `max_preparation_time` is set to a nonzero value
`m`, the score includes `+2` if `recipe.preparation_time ≤ m` and `-1`
otherwise; when it is unset, or set to `0` (falsy in Python), the
preparation-time term contributes `0`. Stated as: the score equals the
score computed with `max_preparation_time` unset, plus exactly that
contribution. -/
theorem score_prep_time_term_amended (recipe : Recipe) (preferences : UserPreferences) :
    calculate_recipe_score recipe preferences =
      calculate_recipe_score recipe
        ⟨preferences.dietary_preference, preferences.available_ingredients,
         preferences.excluded_ingredients, none⟩
      + (match preferences.max_preparation_time with
         | none => (0 : ℚ)
         | some m => if m = 0 then 0 else if recipe.preparation_time ≤ m then 2 else -1) := by
  obtain ⟨dp, avail, excl, mpt⟩ := preferences
  rw [calculate_recipe_score_eq_terms, calculate_recipe_score_eq_terms]
  cases mpt with
  | none => simp [available_names, prep_time_term]
  | some m => simp only [available_names, prep_time_term]; ring

/-- C6: the remaining additive terms of the score are computed as the spec
states, with `A = available_names preferences` and
`R = required_names recipe` the sets of available and required ingredient
names (name-only exact string matching, units ignored): `5 × |A ∩ R| / |R|`
when `R` is non-empty and `0` otherwise; `+3` when the dietary preference
is a member of the recipe's dietary preferences; and a single `−10` when at
least one excluded name occurs in `R`, applied once no matter how many
excluded names match. -/
theorem score_terms_spec (recipe : Recipe) (preferences : UserPreferences) :
    calculate_recipe_score recipe preferences =
      (if required_names recipe ≠ ∅ then
          5 * ((available_names preferences ∩ required_names recipe).card : ℚ)
            / ((required_names recipe).card : ℚ)
        else 0)
      + prep_time_term recipe preferences
      + (if preferences.dietary_preference ∈ recipe.dietary_preferences then 3 else 0)
      + (if ∃ excluded ∈ preferences.excluded_ingredients,
            excluded ∈ required_names recipe then
          (-10 : ℚ)
        else 0) := by
  rw [calculate_recipe_score_eq_terms]
  have hcard : ((required_names recipe).card ≠ 0) ↔ (required_names recipe ≠ ∅) :=
    not_congr Finset.card_eq_zero
  have h1 : (if (required_names recipe).card ≠ 0 then
        ((available_names preferences ∩ required_names recipe).card : ℚ)
          / ((required_names recipe).card : ℚ) * 5
      else 0)
      = (if required_names recipe ≠ ∅ then
          5 * ((available_names preferences ∩ required_names recipe).card : ℚ)
            / ((required_names recipe).card : ℚ)
        else 0) := by
    by_cases hR : required_names recipe = ∅
    · rw [if_neg (by simp [hR]), if_neg (by simp [hR])]
    · rw [if_pos (hcard.mpr hR), if_pos hR]; ring
  have h2 : (if (preferences.excluded_ingredients.any fun excluded =>
          decide (excluded ∈ required_names recipe)) = true then (-10 : ℚ) else 0)
      = (if ∃ excluded ∈ preferences.excluded_ingredients,
            excluded ∈ required_names recipe then
          (-10 : ℚ)
        else 0) := by
    by_cases hE : ∃ excluded ∈ preferences.excluded_ingredients,
        excluded ∈ required_names recipe
    · rw [if_pos (by simpa using hE), if_pos hE]
    · rw [if_neg (by simpa using hE), if_neg hE]
  rw [h1, h2]

/-- Counterexample to C1: with an empty candidate list (so both the
recency-filtered and the slot-filtered candidate sets of every slot are
empty), `select_meals` returns `None` for every slot. No
`NoCandidateForSlot` error exists anywhere in the code
(`_select_best_recipe` falls through to `return best_recipe` with
`best_recipe = None`), so selection produces a null value instead of
raising. -/
theorem select_meals_empty_counterexample :
    (([] : List Recipe).filter fun r => r.meal_type = "breakfast") = []
    ∧ select_meals [] prefs_plain ∅ = (none, none, none)
    ∧ select_best_recipe [] prefs_plain ∅ = none := by
  exact ⟨rfl, rfl, rfl⟩

/-- C1 as amended, per slot: whenever no candidate recipe has `meal_type`
equal to a given slot (hence that slot's recency-filtered set is empty
too), `_select_best_recipe` returns `None` for that slot — a null value
propagated to the caller, not an error; the code defines no
`NoCandidateForSlot`. Each slot is covered independently: the other slots
may or may not have candidates. -/
theorem select_meals_empty_slots_return_none (available : List Recipe)
    (preferences : UserPreferences) (recentIds : Finset String) :
    ((available.filter fun r => r.meal_type = "breakfast") = [] →
      (select_meals available preferences recentIds).1 = none)
    ∧ ((available.filter fun r => r.meal_type = "lunch") = [] →
      (select_meals available preferences recentIds).2.1 = none)
    ∧ ((available.filter fun r => r.meal_type = "dinner") = [] →
      (select_meals available preferences recentIds).2.2 = none) := by
  refine ⟨fun hb => ?_, fun hl => ?_, fun hd => ?_⟩
  · show select_best_recipe (available.filter fun r => r.meal_type = "breakfast")
      preferences recentIds = none
    rw [hb]
    rfl
  · show select_best_recipe (available.filter fun r => r.meal_type = "lunch")
      preferences recentIds = none
    rw [hl]
    rfl
  · show select_best_recipe (available.filter fun r => r.meal_type = "dinner")
      preferences recentIds = none
    rw [hd]
    rfl

/-- Witness for the amended C1, exercising the mixed case: with only the
breakfast recipe `recipe_rice` available, the lunch and dinner slots have
empty filters and yield `None` while breakfast has a candidate; with only
the slotless `recipe_main` available, the breakfast slot yields `None`
too. -/
theorem select_meals_empty_slots_return_none_witness :
    (select_meals [recipe_rice] prefs_plain ∅).2.1 = none
    ∧ (select_meals [recipe_rice] prefs_plain ∅).2.2 = none
    ∧ (select_meals [recipe_main] prefs_plain ∅).1 = none :=
  ⟨(select_meals_empty_slots_return_none [recipe_rice] prefs_plain ∅).2.1
      (by decide),
   (select_meals_empty_slots_return_none [recipe_rice] prefs_plain ∅).2.2
      (by decide),
   (select_meals_empty_slots_return_none [recipe_main] prefs_plain ∅).1
      (by decide)⟩

/-- Counterexample to C4: `Ingredient` (`models.py` lines 15-21) is a plain
pydantic model with no validators, so construction with a non-positive
quantity and empty name and unit succeeds and yields exactly that malformed
value — no `MalformedIngredient` error exists in the code and no exception
is raised at construction time. -/
theorem mkIngredient_malformed_counterexample :
    mkIngredient "" (-1) "" = ⟨"", -1, ""⟩
    ∧ specMalformed (mkIngredient "" (-1) "") = true
    ∧ (mkIngredient "" (-1) "").quantity ≤ 0
    ∧ (mkIngredient "" (-1) "").name = ""
    ∧ (mkIngredient "" (-1) "").unit = "" := by
  exact ⟨rfl, by decide, by decide, rfl, rfl⟩

/-- C4 as amended: constructing an `Ingredient` performs no value
validation at all — every name, quantity and unit is stored verbatim, and
whenever the inputs are malformed in the spec's sense (non-positive
quantity, or empty name or unit) the constructed value is a malformed
`Ingredient`; nothing prevents such values from being created. -/
theorem mkIngredient_no_validation (n u : String) (q : ℚ) :
    mkIngredient n q u = ⟨n, q, u⟩
    ∧ ((q ≤ 0 ∨ n = "" ∨ u = "") → specMalformed (mkIngredient n q u) = true) := by
  refine ⟨rfl, fun h => ?_⟩
  unfold specMalformed mkIngredient
  rcases h with h | h | h <;> simp [h]

/-- Witness for the amended C4: a zero-quantity ingredient is constructed
without error and is malformed. -/
theorem mkIngredient_no_validation_witness :
    specMalformed (mkIngredient "rice" 0 "cup") = true :=
  (mkIngredient_no_validation "rice" "cup" 0).2 (Or.inl (by norm_num))

/-- The selection fold skips recently used recipes and otherwise behaves as
the first-encountered-maximum accumulator `List.argAux`. -/
theorem foldl_select_step_eq_filter (preferences : UserPreferences)
    (recentIds : Finset String) (recipes : List Recipe) (acc : Option Recipe) :
    recipes.foldl (select_step preferences recentIds) acc
      = (recipes.filter fun r => !(decide (r.id ∈ recentIds))).foldl
          (List.argAux fun b c =>
            calculate_recipe_score c preferences < calculate_recipe_score b preferences)
          acc := by
  induction recipes generalizing acc with
  | nil => rfl
  | cons r rs ih =>
    by_cases h : r.id ∈ recentIds
    · have hstep : select_step preferences recentIds acc r = acc := by
        simp [select_step, h]
      rw [List.foldl_cons, hstep, List.filter_cons, if_neg (by simp [h])]
      exact ih acc
    · have hstep : select_step preferences recentIds acc r
          = List.argAux (fun b c => calculate_recipe_score c preferences
              < calculate_recipe_score b preferences) acc r := by
        cases acc with
        | none => simp [select_step, h, List.argAux]
        | some b => simp [select_step, h, List.argAux]
      rw [List.foldl_cons, hstep, List.filter_cons, if_pos (by simp [h]),
        List.foldl_cons]
      exact ih _

/-- `_select_best_recipe` is the first-encountered maximum (by score) of the
non-recent candidates, falling back to the head of the unfiltered list. -/
theorem select_best_recipe_eq_argmax (recipes : List Recipe)
    (preferences : UserPreferences) (recentIds : Finset String) :
    select_best_recipe recipes preferences recentIds
      = match (recipes.filter fun r => !(decide (r.id ∈ recentIds))).argmax
            (fun r => calculate_recipe_score r preferences) with
        | some r => some r
        | none => recipes.head? := by
  unfold select_best_recipe List.argmax
  rw [foldl_select_step_eq_filter]

/-- C7: for every candidate list: if at least one candidate is not recently
used, selection returns the first-encountered maximum by score among the
non-recent candidates — the returned recipe belongs to the non-recent
sublist, scores at least as high as every non-recent candidate, and any
non-recent candidate scoring at least as high appears no earlier in
iteration order (so the first-encountered maximum wins ties); if instead
every candidate is recently used, selection returns the first element of
the slot-filtered list in original order, ignoring both score and
recency. -/
theorem select_best_recipe_first_max (recipes : List Recipe)
    (preferences : UserPreferences) (recentIds : Finset String) :
    ((recipes.filter fun r => !(decide (r.id ∈ recentIds))) ≠ [] →
      ∃ m, select_best_recipe recipes preferences recentIds = some m
        ∧ m ∈ (recipes.filter fun r => !(decide (r.id ∈ recentIds)))
        ∧ (∀ a ∈ recipes.filter fun r => !(decide (r.id ∈ recentIds)),
            calculate_recipe_score a preferences
              ≤ calculate_recipe_score m preferences)
        ∧ (∀ a ∈ recipes.filter fun r => !(decide (r.id ∈ recentIds)),
            calculate_recipe_score m preferences
                ≤ calculate_recipe_score a preferences →
              (recipes.filter fun r => !(decide (r.id ∈ recentIds))).indexOf m
                ≤ (recipes.filter fun r => !(decide (r.id ∈ recentIds))).indexOf a))
    ∧ ((recipes.filter fun r => !(decide (r.id ∈ recentIds))) = [] →
        ∀ h : recipes ≠ [],
          select_best_recipe recipes preferences recentIds
            = some (recipes.head h)) := by
  constructor
  · intro hne
    rcases hm : (recipes.filter fun r => !(decide (r.id ∈ recentIds))).argmax
        (fun r => calculate_recipe_score r preferences) with _ | m
    · rw [List.argmax_eq_none] at hm
      exact absurd hm hne
    · obtain ⟨hmem, hmax, hfirst⟩ := List.argmax_eq_some_iff.mp hm
      refine ⟨m, ?_, hmem, hmax, fun a ha hsc => hfirst a ha hsc⟩
      rw [select_best_recipe_eq_argmax, hm]
  · intro hempty h
    rw [select_best_recipe_eq_argmax, hempty]
    simp [List.head?_eq_head h]

/-- Witness for C7: with two zero-scoring non-recent breakfast candidates
the selector returns the first of them, and with a single candidate that is
recently used it falls back to the head of the slot-filtered list. -/
theorem select_best_recipe_first_max_witness :
    (∃ m, select_best_recipe [recipe_plain, recipe_rice] prefs_plain ∅ = some m
      ∧ m ∈ ([recipe_plain, recipe_rice].filter
          fun r => !(decide (r.id ∈ (∅ : Finset String))))
      ∧ (∀ a ∈ [recipe_plain, recipe_rice].filter
            fun r => !(decide (r.id ∈ (∅ : Finset String))),
          calculate_recipe_score a prefs_plain
            ≤ calculate_recipe_score m prefs_plain)
      ∧ (∀ a ∈ [recipe_plain, recipe_rice].filter
            fun r => !(decide (r.id ∈ (∅ : Finset String))),
          calculate_recipe_score m prefs_plain
              ≤ calculate_recipe_score a prefs_plain →
            ([recipe_plain, recipe_rice].filter
                fun r => !(decide (r.id ∈ (∅ : Finset String)))).indexOf m
              ≤ ([recipe_plain, recipe_rice].filter
                fun r => !(decide (r.id ∈ (∅ : Finset String)))).indexOf a))
    ∧ select_best_recipe [recipe_plain] prefs_plain {"rp"}
        = some ([recipe_plain].head (by decide)) :=
  ⟨(select_best_recipe_first_max [recipe_plain, recipe_rice] prefs_plain ∅).1
      (by decide),
   (select_best_recipe_first_max [recipe_plain] prefs_plain {"rp"}).2
      (by decide) (by decide)⟩

/-- Membership in a left fold of finite-set unions. -/
theorem mem_foldl_union (sets : List (Finset String)) (init : Finset String)
    (x : String) :
    (x ∈ sets.foldl (· ∪ ·) init) ↔ x ∈ init ∨ ∃ t ∈ sets, x ∈ t := by
  induction sets generalizing init with
  | nil => simp
  | cons a sets ih =>
    rw [List.foldl_cons, ih]
    simp only [Finset.mem_union, List.mem_cons]
    constructor
    · rintro ((hx | hx) | ⟨t, ht, hx⟩)
      · exact Or.inl hx
      · exact Or.inr ⟨a, Or.inl rfl, hx⟩
      · exact Or.inr ⟨t, Or.inr ht, hx⟩
    · rintro (hx | ⟨t, rfl | ht, hx⟩)
      · exact Or.inl (Or.inl hx)
      · exact Or.inl (Or.inr hx)
      · exact Or.inr ⟨t, ht, hx⟩

/-- Membership in the `old_recipe_ids` set collected by
`_cleanup_old_recipes`: exactly the ids referenced by some stored plan
dated strictly before the cutoff. -/
theorem mem_old_recipe_ids (plans : List (Int × MealPlan)) (cutoff : Int)
    (x : String) :
    (x ∈ ((plans.filter fun kv => kv.1 < cutoff).map
        fun kv => plan_recipe_ids kv.2).foldl (· ∪ ·) ∅)
      ↔ ∃ kv ∈ plans, kv.1 < cutoff ∧ x ∈ plan_recipe_ids kv.2 := by
  rw [mem_foldl_union]
  simp only [Finset.not_mem_empty, false_or, List.mem_map, List.mem_filter,
    decide_eq_true_eq]
  constructor
  · rintro ⟨t, ⟨kv, ⟨hkv, hlt⟩, rfl⟩, hx⟩
    exact ⟨kv, hkv, hlt, hx⟩
  · rintro ⟨kv, hkv, hlt, hx⟩
    exact ⟨plan_recipe_ids kv.2, ⟨kv, ⟨hkv, hlt⟩, rfl⟩, hx⟩

/-- Counterexample to C2: `plan_old` (dated day 1, strictly before the
cutoff `10 - 7 = 3`) and `plan_new` (dated day 10, on or after the cutoff)
both reference recipe id `"rp"`. After `store_meal_plan` on day 10 both
plans are stored, yet `"rp"` has been removed from `recent_recipe_ids`:
the cleanup removes every id referenced by any old plan unconditionally,
with no "unless a more recent plan still references it" exception, so the
claimed biconditional fails. -/
theorem cleanup_removes_despite_recent_counterexample :
    plan_old.date < 10 - 7
    ∧ "rp" ∈ plan_recipe_ids plan_old
    ∧ 10 - 7 ≤ plan_new.date
    ∧ "rp" ∈ plan_recipe_ids plan_new
    ∧ dict_lookup (store_meal_plan 10 mem_st0 plan_new).meal_plans plan_old.date
        = some plan_old
    ∧ dict_lookup (store_meal_plan 10 mem_st0 plan_new).meal_plans plan_new.date
        = some plan_new
    ∧ "rp" ∉ (store_meal_plan 10 mem_st0 plan_new).recent_recipe_ids := by
  decide

/-- C2 as amended: after `store_meal_plan` completes, an id is in
`recent_recipe_ids` iff it was in `recent_recipe_ids` just after the new
plan's three ids were added (i.e. it was previously recent or is referenced
by the stored plan) AND it is referenced by no stored plan dated strictly
before `today − 7` — the removal is unconditional, with no exception for
ids that a plan dated on or after the cutoff still references. In
particular an id referenced only by a plan dated exactly 8 days before
today is removed, and a previously recent id referenced only by a plan
dated exactly 6 days before today is retained. -/
theorem store_meal_plan_recent_ids_spec (today : Int) (st : MemoryState)
    (plan : MealPlan) (x : String) :
    x ∈ (store_meal_plan today st plan).recent_recipe_ids ↔
      ((x ∈ st.recent_recipe_ids ∨ x ∈ plan_recipe_ids plan)
        ∧ ∀ kv ∈ dict_insert st.meal_plans plan.date plan,
            kv.1 < today - 7 → x ∉ plan_recipe_ids kv.2) := by
  unfold store_meal_plan cleanup_old_recipes
  simp only [Finset.mem_sdiff, Finset.mem_union, mem_old_recipe_ids]
  constructor
  · rintro ⟨hin, hnot⟩
    exact ⟨hin, fun kv hkv hlt hx => hnot ⟨kv, hkv, hlt, hx⟩⟩
  · rintro ⟨hin, hall⟩
    exact ⟨hin, fun ⟨kv, hkv, hlt, hx⟩ => hall kv hkv hlt hx⟩

/-- Witness for the amended C2: in the counterexample state, `"rp"` is
removed (it is referenced by the old plan) even though the new plan also
references it, and a fresh id referenced only by the new plan stays. -/
theorem store_meal_plan_recent_ids_spec_witness :
    "rp" ∉ (store_meal_plan 10 mem_st0 plan_new).recent_recipe_ids := by
  rw [store_meal_plan_recent_ids_spec 10 mem_st0 plan_new "rp"]
  intro ⟨_, hall⟩
  exact hall (1, plan_old) (by decide) (by decide) (by decide)

/-- Looking up a key other than the inserted one is unaffected by the
overwrite map of `dict_insert`. -/
theorem dict_lookup_map_overwrite_ne (m : List (Int × MealPlan)) (k : Int)
    (v : MealPlan) (d : Int) (hne : d ≠ k) :
    dict_lookup (m.map fun kv => if kv.1 = k then (k, v) else kv) d
      = dict_lookup m d := by
  induction m with
  | nil => rfl
  | cons kv m ih =>
    by_cases hk : kv.1 = k
    · rw [List.map_cons, if_pos hk]
      unfold dict_lookup
      rw [if_neg fun h => hne h.symm, if_neg (by rw [hk]; exact fun h => hne h.symm)]
      exact ih
    · rw [List.map_cons, if_neg hk]
      unfold dict_lookup
      by_cases hd : kv.1 = d
      · rw [if_pos hd, if_pos hd]
      · rw [if_neg hd, if_neg hd]
        exact ih

/-- Looking up the inserted key after the overwrite map of `dict_insert`
yields the new value, provided the key occurs. -/
theorem dict_lookup_map_overwrite_eq (m : List (Int × MealPlan)) (k : Int)
    (v : MealPlan) (hany : (m.any fun kv => kv.1 = k) = true) :
    dict_lookup (m.map fun kv => if kv.1 = k then (k, v) else kv) k
      = some v := by
  induction m with
  | nil => simp at hany
  | cons kv m ih =>
    by_cases hk : kv.1 = k
    · rw [List.map_cons, if_pos hk]
      unfold dict_lookup
      rw [if_pos rfl]
    · rw [List.map_cons, if_neg hk]
      unfold dict_lookup
      rw [if_neg hk]
      refine ih ?_
      simpa [hk] using hany

/-- Looking up an absent key yields `none`. -/
theorem dict_lookup_not_any (m : List (Int × MealPlan)) (k : Int)
    (hany : (m.any fun kv => kv.1 = k) = false) :
    dict_lookup m k = none := by
  induction m with
  | nil => rfl
  | cons kv m ih =>
    simp only [List.any_cons, Bool.or_eq_false_iff, decide_eq_false_iff_not] at hany
    unfold dict_lookup
    rw [if_neg hany.1]
    exact ih (by simpa using hany.2)

/-- Appending a single binding to the back of the dictionary list only
affects lookups that previously found nothing. -/
theorem dict_lookup_append_single (m : List (Int × MealPlan)) (k : Int)
    (v : MealPlan) (d : Int) :
    dict_lookup (m ++ [(k, v)]) d
      = match dict_lookup m d with
        | some w => some w
        | none => if k = d then some v else none := by
  induction m with
  | nil => simp [dict_lookup]
  | cons kv m ih =>
    simp only [List.cons_append, dict_lookup]
    by_cases hk : kv.1 = d
    · rw [if_pos hk, if_pos hk]
    · rw [if_neg hk, if_neg hk]
      exact ih

/-- The dictionary write `self.meal_plans[date] = plan`: the written key now
maps to the new value, every other key is untouched. -/
theorem dict_lookup_insert (m : List (Int × MealPlan)) (k : Int) (v : MealPlan)
    (d : Int) :
    dict_lookup (dict_insert m k v) d
      = if d = k then some v else dict_lookup m d := by
  unfold dict_insert
  by_cases hany : (m.any fun kv => kv.1 = k) = true
  · rw [if_pos hany]
    by_cases hd : d = k
    · subst hd
      rw [if_pos rfl, dict_lookup_map_overwrite_eq m d v hany]
    · rw [if_neg hd, dict_lookup_map_overwrite_ne m k v d hd]
  · rw [if_neg hany, dict_lookup_append_single]
    have hf : (m.any fun kv => kv.1 = k) = false := by
      cases hb : (m.any fun kv => kv.1 = k)
      · rfl
      · exact absurd hb hany
    have hnone := dict_lookup_not_any m k hf
    by_cases hd : d = k
    · subst hd
      rw [hnone]
    · rw [if_neg hd]
      cases h : dict_lookup m d with
      | none => rw [if_neg fun hk => hd hk.symm]
      | some w => rfl

/-- A key present in the plans dictionary stays present across any sequence
of `MemoryModule` calls. -/
theorem run_ops_preserves_plan (ops : List MemOp) (st : MemoryState) (d : Int) :
    (∃ mp, dict_lookup st.meal_plans d = some mp) →
    ∃ mp2, dict_lookup (run_ops st ops).meal_plans d = some mp2 := by
  induction ops generalizing st with
  | nil => exact fun h => h
  | cons op ops ih =>
    intro h
    refine ih (apply_op st op) ?_
    cases op with
    | record today plan =>
      obtain ⟨mp, hmp⟩ := h
      show ∃ mp2,
        dict_lookup (store_meal_plan today st plan).meal_plans d = some mp2
      have hmeal : (store_meal_plan today st plan).meal_plans
          = dict_insert st.meal_plans plan.date plan := rfl
      rw [hmeal, dict_lookup_insert]
      by_cases hd : d = plan.date
      · exact ⟨plan, by rw [if_pos hd]⟩
      · exact ⟨mp, by rw [if_neg hd]; exact hmp⟩
    | recentQuery r => exact h
    | getQuery dq => exact h

/-- C9: no entry is ever removed from the plans map. Across any sequence of
record / is-recent / get operations a stored date keeps some plan;
`store_meal_plan` only inserts or overwrites the entry at `plan.date`,
leaving every other date's lookup unchanged; the eviction pass mutates only
`recent_recipe_ids` and leaves `meal_plans` intact; and the two query
operations leave the whole state unchanged. -/
theorem memory_plans_never_removed (ops : List MemOp) (st : MemoryState)
    (d : Int) (mp : MealPlan)
    (h : dict_lookup st.meal_plans d = some mp) :
    (∃ mp2, dict_lookup (run_ops st ops).meal_plans d = some mp2)
    ∧ (∀ today plan,
        dict_lookup (store_meal_plan today st plan).meal_plans plan.date
            = some plan
        ∧ ∀ d2, d2 ≠ plan.date →
            dict_lookup (store_meal_plan today st plan).meal_plans d2
              = dict_lookup st.meal_plans d2)
    ∧ (∀ today, (cleanup_old_recipes today st).meal_plans = st.meal_plans)
    ∧ (∀ r, (is_recipe_recently_used r st).2 = st)
    ∧ (∀ d2, (get_past_meal_plan d2 st).2 = st) := by
  refine ⟨run_ops_preserves_plan ops st d ⟨mp, h⟩, ?_, fun _ => rfl,
    fun _ => rfl, fun _ => rfl⟩
  intro today plan
  have hmeal : (store_meal_plan today st plan).meal_plans
      = dict_insert st.meal_plans plan.date plan := rfl
  constructor
  · rw [hmeal, dict_lookup_insert, if_pos rfl]
  · intro d2 hd2
    rw [hmeal, dict_lookup_insert, if_neg hd2]

/-- Witness for C9: the plan stored under date 1 survives recording a new
plan on day 10 together with both query operations. -/
theorem memory_plans_never_removed_witness :
    ∃ mp2, dict_lookup
        (run_ops mem_st0
          [MemOp.record 10 plan_new, MemOp.recentQuery recipe_plain,
           MemOp.getQuery 1]).meal_plans 1
      = some mp2 :=
  (memory_plans_never_removed
      [MemOp.record 10 plan_new, MemOp.recentQuery recipe_plain,
       MemOp.getQuery 1]
      mem_st0 1 plan_old (by decide)).1

/-- A key occurs in the first-occurrence deduplication iff it occurs in the
original list. -/
theorem mem_dedupFirst (ks : List (String × String)) (k : String × String) :
    k ∈ dedupFirst ks ↔ k ∈ ks := by
  induction ks with
  | nil => simp [dedupFirst]
  | cons a ks ih =>
    simp only [dedupFirst, List.mem_cons, List.mem_filter, ih, decide_eq_true_eq]
    constructor
    · rintro (rfl | ⟨hk, _⟩)
      · exact Or.inl rfl
      · exact Or.inr hk
    · rintro (rfl | hk)
      · exact Or.inl rfl
      · by_cases hka : k = a
        · exact Or.inl hka
        · exact Or.inr ⟨hk, hka⟩

/-- The first-occurrence deduplication has no duplicate keys. -/
theorem dedupFirst_nodup (ks : List (String × String)) : (dedupFirst ks).Nodup := by
  induction ks with
  | nil => simp [dedupFirst]
  | cons a ks ih =>
    refine List.Nodup.cons ?_ (ih.filter _)
    intro hmem
    have h2 := (List.mem_filter.mp hmem).2
    simp at h2

/-- Unfolding equation of `dedupFirst` at a cons cell. -/
theorem dedupFirst_cons (a : String × String) (ks : List (String × String)) :
    dedupFirst (a :: ks) = a :: (dedupFirst ks).filter (fun k2 => k2 ≠ a) := rfl

/-- Appending one key at the back: a fresh key is appended to the
deduplicated list, a seen key disappears. -/
theorem dedupFirst_append_single (ks : List (String × String))
    (k : String × String) :
    dedupFirst (ks ++ [k])
      = if k ∈ ks then dedupFirst ks else dedupFirst ks ++ [k] := by
  induction ks with
  | nil => simp [dedupFirst]
  | cons a ks ih =>
    rw [List.cons_append, dedupFirst_cons, ih, dedupFirst_cons]
    by_cases hk : k ∈ ks
    · rw [if_pos hk, if_pos (List.mem_cons_of_mem a hk)]
    · rw [if_neg hk]
      by_cases hka : k = a
      · subst hka
        rw [if_pos (List.mem_cons_self k ks), List.filter_append]
        simp
      · rw [if_neg (by simp [hka, hk]), List.filter_append]
        simp only [List.filter_cons, List.filter_nil]
        rw [if_pos (by simp [hka])]
        rfl

/-- Keys of the canonical consolidation state. -/
theorem canon_keys (xs : List Ingredient) :
    (canon xs).map Prod.fst = dedupFirst (xs.map ing_key) := by
  unfold canon
  rw [List.map_map]
  have hcomp : (Prod.fst ∘ canon_entry xs) = id := by
    funext k
    rfl
  rw [hcomp, List.map_id]

/-- The presence test of `add_missing` coincides with occurrence of the key
in the processed stream. -/
theorem canon_any_key (xs : List Ingredient) (k : String × String) :
    (((canon xs).any fun kv => kv.1 = k) = true) ↔ k ∈ xs.map ing_key := by
  rw [List.any_eq_true]
  constructor
  · rintro ⟨kv, hkv, hk⟩
    obtain ⟨k2, hk2, rfl⟩ := List.mem_map.mp hkv
    simp only [decide_eq_true_eq] at hk
    have hfst : (canon_entry xs k2).1 = k2 := rfl
    rw [hfst] at hk
    subst hk
    exact (mem_dedupFirst _ _).mp hk2
  · intro hk
    exact ⟨canon_entry xs k,
      List.mem_map.mpr ⟨k, (mem_dedupFirst _ _).mpr hk, rfl⟩,
      by simp [canon_entry]⟩

/-- One `add_missing` step preserves the canonical description of the
consolidation state. -/
theorem add_missing_canon (xs : List Ingredient) (x : Ingredient) :
    add_missing (canon xs) x = canon (xs ++ [x]) := by
  simp only [add_missing]
  by_cases hmem : (x.name, x.unit) ∈ xs.map ing_key
  · rw [if_pos ((canon_any_key xs (x.name, x.unit)).mpr hmem)]
    unfold canon
    rw [List.map_append, List.map_singleton, dedupFirst_append_single,
      if_pos (by exact hmem : ing_key x ∈ xs.map ing_key), List.map_map]
    apply List.map_congr_left
    intro k hkmem
    by_cases hk : k = (x.name, x.unit)
    · subst hk
      simp [Function.comp, canon_entry, List.filter_append, ing_key]
    · have hxk : ¬((x.name, x.unit) = k) := fun h => hk h.symm
      simp [Function.comp, canon_entry, List.filter_append, ing_key, hk, hxk]
  · rw [if_neg (fun h => hmem ((canon_any_key xs (x.name, x.unit)).mp h))]
    unfold canon
    rw [List.map_append, List.map_singleton, dedupFirst_append_single,
      if_neg (by exact hmem : ¬ ing_key x ∈ xs.map ing_key), List.map_append]
    congr 1
    · apply List.map_congr_left
      intro k hkmem
      have hkx : ¬((x.name, x.unit) = k) := by
        intro h
        apply hmem
        rw [h]
        exact (mem_dedupFirst _ _).mp hkmem
      simp [canon_entry, List.filter_append, ing_key, hkx]
    · have hfilter : xs.filter
          (fun i => decide (i.name = x.name) && decide (i.unit = x.unit)) = [] := by
        rw [List.filter_eq_nil_iff]
        intro i hi
        simp only [Bool.and_eq_true, decide_eq_true_eq, not_and]
        intro h1 h2
        apply hmem
        refine List.mem_map.mpr ⟨i, hi, ?_⟩
        simp [ing_key, h1, h2]
      simp [canon_entry, List.filter_append, hfilter, ing_key]

/-- The `add_missing` fold from the empty dictionary produces exactly the
canonical consolidation state. -/
theorem foldl_add_missing_eq_canon (xs : List Ingredient) :
    xs.foldl add_missing [] = canon xs := by
  induction xs using List.reverseRecOn with
  | nil => rfl
  | append_singleton xs x ih =>
    rw [List.foldl_append, List.foldl_cons, List.foldl_nil, ih, add_missing_canon]

/-- The nested meal/ingredient fold of `_compile_shopping_list` equals the
fold over the concatenated missing-ingredient stream. -/
theorem foldl_meals_eq_foldl_bind (meals : List Meal)
    (acc : List ((String × String) × Ingredient)) :
    meals.foldl (fun consolidated meal =>
        meal.missing_ingredients.foldl add_missing consolidated) acc
      = (meals.flatMap Meal.missing_ingredients).foldl add_missing acc := by
  induction meals generalizing acc with
  | nil => rfl
  | cons meal meals ih =>
    rw [List.foldl_cons, List.flatMap_cons, List.foldl_append]
    exact ih _

/-- `_compile_shopping_list` computes the values of the canonical
consolidation state of the concatenated missing-ingredient stream. -/
theorem compile_shopping_list_eq_canon (meals : List Meal) :
    compile_shopping_list meals
      = (canon (meals.flatMap Meal.missing_ingredients)).map Prod.snd := by
  unfold compile_shopping_list
  rw [foldl_meals_eq_foldl_bind, foldl_add_missing_eq_canon]

/-- C8: the compiled shopping list has exactly one entry per distinct
`(name, unit)` key occurring among the meals' missing ingredients; the
entries appear in first-occurrence order of their key over the concatenated
missing stream (meals in given order, ingredients within a meal in listed
order); and each entry's quantity is the sum of the quantities of all
missing entries carrying its key. Separate units of the same name are
separate keys, hence separate entries. -/
theorem compile_shopping_list_spec (meals : List Meal) :
    ((compile_shopping_list meals).map ing_key
        = dedupFirst ((meals.flatMap Meal.missing_ingredients).map ing_key))
    ∧ ((compile_shopping_list meals).map ing_key).Nodup
    ∧ (∀ e ∈ compile_shopping_list meals,
        e.quantity = (((meals.flatMap Meal.missing_ingredients).filter
            fun i => ing_key i = ing_key e).map Ingredient.quantity).sum) := by
  have hkeys : (compile_shopping_list meals).map ing_key
      = dedupFirst ((meals.flatMap Meal.missing_ingredients).map ing_key) := by
    rw [compile_shopping_list_eq_canon]
    unfold canon
    rw [List.map_map, List.map_map]
    have hcomp : ((ing_key ∘ Prod.snd) ∘
        canon_entry (meals.flatMap Meal.missing_ingredients)) = id := by
      funext k
      rfl
    rw [hcomp, List.map_id]
  refine ⟨hkeys, ?_, ?_⟩
  · rw [hkeys]
    exact dedupFirst_nodup _
  · intro e he
    rw [compile_shopping_list_eq_canon] at he
    unfold canon at he
    rw [List.map_map] at he
    obtain ⟨k, hk, rfl⟩ := List.mem_map.mp he
    simp [Function.comp, canon_entry, ing_key]

/-- Witness for C8 at the spec's §8 example: two meals each missing one cup
of sugar produce a single entry whose quantity is the `2 = 1 + 1` sum over
all matching missing entries. -/
theorem compile_shopping_list_spec_witness :
    (Ingredient.mk "sugar" 2 "cup").quantity
      = ((([meal_sugar, meal_sugar].flatMap Meal.missing_ingredients).filter
          fun i => ing_key i = ing_key (Ingredient.mk "sugar" 2 "cup")).map
            Ingredient.quantity).sum :=
  (compile_shopping_list_spec [meal_sugar, meal_sugar]).2.2
    (Ingredient.mk "sugar" 2 "cup")
    (by norm_num [compile_shopping_list, add_missing, meal_sugar, ing_sugar])

end MealPlanner
